import Mathlib

/-!
# Verification of the Tradier-db-bot spot indicator engine

Shallow embedding of the indicator pipeline in `bot/spot_indicators.py`
(swings, structure, fair value gaps, liquidity, volume profile, trend),
the position-classification rule in `bot/loops.py`, and the stop-loss /
take-profit derivation in `bot/new_trade_importer.py`.

Modelling conventions:
* Python floats are modelled exactly by `ℚ`; the literals `1e-6`, `0.0005`,
  `0.05`, `0.10` become the rationals `1/1000000`, `5/10000`, `5/100`, `10/100`.
* Python lists become `List`, dict-shaped records become structures, a Python
  function that may return `{}` / `None` becomes an `Option`-valued function.
* Negative indexing `l[-k]` is `l.getD (l.length - k) _`; Python's `int()`
  truncates toward zero, which on rationals is `q.num / q.den`.
* Python's `sorted` is a stable sort; stable sorting by a key is extensionally
  unique, so it is modelled by `List.insertionSort` with the non-strict
  key comparison (earlier elements are kept in front of later equal-key ones).
-/

namespace TradierBot

/-- One OHLCV bar, as consumed by `bot/spot_indicators.py` (the `open` field of
the source dict is never read by the indicator code, so it is not modelled). -/
structure Candle where
  ts : ℤ
  high : ℚ
  low : ℚ
  close : ℚ
  volume : ℚ
  deriving DecidableEq, Repr

instance : Inhabited Candle := ⟨⟨0, 0, 0, 0, 0⟩⟩

/-- `candles[i]` (every access in the source is in-bounds). -/
def getC (candles : List Candle) (i : ℕ) : Candle :=
  candles.getD i default

/-- A swing point `{"price": ..., "ts": ...}`. -/
structure SwingPoint where
  price : ℚ
  ts : ℤ
  deriving DecidableEq, Repr

instance : Inhabited SwingPoint := ⟨⟨0, 0⟩⟩

/-- Result of `find_swings`. -/
structure Swings where
  swing_highs : List SwingPoint
  swing_lows : List SwingPoint
  deriving DecidableEq, Repr

/-- `find_swings` from `bot/spot_indicators.py`: fractal swing detection.
The loop `for i in range(fractal, n - fractal)` appending into two lists is
embedded as two `filterMap`s over `List.range' fractal (n - 2*fractal)`;
`all(... for k in range(1, fractal + 1))` is `(List.range' 1 fractal).all`. -/
def find_swings (candles : List Candle) (fractal : ℕ) : Swings :=
  let n := candles.length
  if n < 2 * fractal + 1 then ⟨[], []⟩
  else
    let idxs := List.range' fractal (n - fractal - fractal)
    let highs := idxs.filterMap fun i =>
      let hi := (getC candles i).high
      if (List.range' 1 fractal).all fun k =>
          decide (hi > (getC candles (i - k)).high) &&
            decide (hi > (getC candles (i + k)).high)
      then some ⟨hi, (getC candles i).ts⟩ else none
    let lows := idxs.filterMap fun i =>
      let lo := (getC candles i).low
      if (List.range' 1 fractal).all fun k =>
          decide (lo < (getC candles (i - k)).low) &&
            decide (lo < (getC candles (i + k)).low)
      then some ⟨lo, (getC candles i).ts⟩ else none
    ⟨highs, lows⟩

/-- The swing-high predicate exactly as the spec words it: `high[i]` strictly
exceeds `high[i-k]` and `high[i+k]` for every `k` in `1..fractal`. -/
def specSwingHigh (candles : List Candle) (fractal i : ℕ) : Prop :=
  ∀ k ∈ Finset.Icc 1 fractal,
    (getC candles i).high > (getC candles (i - k)).high ∧
    (getC candles i).high > (getC candles (i + k)).high

/-- The swing-low predicate exactly as the spec words it. -/
def specSwingLow (candles : List Candle) (fractal i : ℕ) : Prop :=
  ∀ k ∈ Finset.Icc 1 fractal,
    (getC candles i).low < (getC candles (i - k)).low ∧
    (getC candles i).low < (getC candles (i + k)).low

instance (candles : List Candle) (fractal i : ℕ) :
    Decidable (specSwingHigh candles fractal i) := by
  unfold specSwingHigh; infer_instance

instance (candles : List Candle) (fractal i : ℕ) :
    Decidable (specSwingLow candles fractal i) := by
  unfold specSwingLow; infer_instance

/-- `find_swings` as the spec words it: exactly the indices `i` with
`fractal ≤ i < n - fractal` (over the integers, `i < n - fractal` is
`i + fractal < n`) that satisfy the swing predicate, in sequence order. -/
def find_swings_spec (candles : List Candle) (fractal : ℕ) : Swings :=
  let n := candles.length
  let hiIdx := (List.range n).filter fun i =>
    decide (fractal ≤ i) && decide (i + fractal < n) &&
      decide (specSwingHigh candles fractal i)
  let loIdx := (List.range n).filter fun i =>
    decide (fractal ≤ i) && decide (i + fractal < n) &&
      decide (specSwingLow candles fractal i)
  ⟨hiIdx.map fun i => ⟨(getC candles i).high, (getC candles i).ts⟩,
   loIdx.map fun i => ⟨(getC candles i).low, (getC candles i).ts⟩⟩

/-- `_pick_last_two` from `bot/spot_indicators.py`:
`(points[-1], points[-2])`, padding with `None`. -/
def pick_last_two (points : List SwingPoint) :
    Option SwingPoint × Option SwingPoint :=
  if points = [] then (none, none)
  else if points.length = 1 then (some (points.getD (points.length - 1) default), none)
  else (some (points.getD (points.length - 1) default),
        some (points.getD (points.length - 2) default))

/-- `classify_structure` from `bot/spot_indicators.py`.  A missing swing point
(Python `None`, falsy) yields `"unknown"`; otherwise the source's if-chain over
the booleans `up_hi`, `up_lo`, `down_hi`, `down_lo`. -/
def classify_structure (last_high prev_high last_low prev_low : Option SwingPoint) :
    String :=
  match last_high, prev_high, last_low, prev_low with
  | some lh, some ph, some ll, some pl =>
    let up_hi := lh.price > ph.price
    let up_lo := ll.price > pl.price
    let down_hi := lh.price < ph.price
    let down_lo := ll.price < pl.price
    if up_hi ∧ up_lo then "HH"
    else if ¬up_hi ∧ up_lo then "HL"
    else if down_hi ∧ ¬down_lo then "LH"
    else if down_hi ∧ down_lo then "LL"
    else "range"
  | _, _, _, _ => "unknown"

/-- Structure classification exactly as the claim words it, as a sequential
if-chain on the four prices. -/
def classifyStructureClaim (lh ph ll pl : ℚ) : String :=
  if lh > ph ∧ ll > pl then "HH"
  else if lh ≤ ph ∧ ll > pl then "HL"
  else if lh < ph ∧ ll ≥ pl then "LH"
  else if lh < ph ∧ ll < pl then "LL"
  else "range"

/-- One fair value gap record. -/
structure FVG where
  type : String
  top : ℚ
  bottom : ℚ
  age : ℕ
  quality : ℚ
  deriving DecidableEq, Repr

/-- `compute_fvgs` from `bot/spot_indicators.py`: 3-candle gap detection.
The loop `for i in range(1, n - 1)` appending up to one bullish and one
bearish record per iteration becomes a `flatMap` of two singleton-or-empty
lists (both conditions may fire independently at the same `i`). -/
def compute_fvgs (candles : List Candle) : List FVG :=
  let n := candles.length
  if n < 3 then []
  else
    (List.range' 1 (n - 2)).flatMap fun i =>
      let prev := getC candles (i - 1)
      let nxt := getC candles (i + 1)
      (if prev.high < nxt.low then
        [⟨"bull", nxt.low, prev.high, n - i, 1⟩] else []) ++
      (if prev.low > nxt.high then
        [⟨"bear", prev.low, nxt.high, n - i, 1⟩] else [])

/-- One sweep event. -/
structure Sweep where
  type : String
  price : ℚ
  ts : ℤ
  deriving DecidableEq, Repr

/-- Result of `compute_liquidity`. -/
structure LiquidityReport where
  equal_highs : List ℚ
  equal_lows : List ℚ
  sweeps : List Sweep
  deriving DecidableEq, Repr

/-- Python's `sorted(set(l))`: the ascending sorted list of the distinct
values of `l`.  (`List.dedup` keeps one copy of each value; sorting a
duplicate-free list by the total order `≤` is order-of-input independent,
so this is extensionally exact.) -/
def sortedSet (l : List ℚ) : List ℚ :=
  List.insertionSort (· ≤ ·) l.dedup

/-- The default `tol = 0.0005` of `compute_liquidity`. -/
def defaultTol : ℚ := 5 / 10000

/-- `compute_liquidity` from `bot/spot_indicators.py`.  The two scans
(equal highs/lows over consecutive pairs `i ∈ range(1, n)`, then sweeps over
`i ∈ range(2, n)` using the pre-deduplication equal-level lists) are embedded
as `filterMap`/`flatMap` over the same index ranges. -/
def compute_liquidity (candles : List Candle) (tol : ℚ) : LiquidityReport :=
  let highs := candles.map (·.high)
  let lows := candles.map (·.low)
  let n := candles.length
  if n < 3 then ⟨[], [], []⟩
  else
    let equal_highs := (List.range' 1 (n - 1)).filterMap fun i =>
      let h0 := highs.getD (i - 1) 0
      let h1 := highs.getD i 0
      if |h1 - h0| / max h0 (1 / 1000000) ≤ tol then some ((h0 + h1) / 2) else none
    let equal_lows := (List.range' 1 (n - 1)).filterMap fun i =>
      let l0 := lows.getD (i - 1) 0
      let l1 := lows.getD i 0
      if |l1 - l0| / max l0 (1 / 1000000) ≤ tol then some ((l0 + l1) / 2) else none
    let sweeps := (List.range' 2 (n - 2)).flatMap fun i =>
      (if highs.getD (i - 2) 0 ∈ equal_highs ∧
          highs.getD i 0 > highs.getD (i - 1) 0 ∧
          highs.getD (i - 1) 0 > highs.getD (i - 2) 0 then
        [⟨"high", highs.getD i 0, (getC candles i).ts⟩] else []) ++
      (if lows.getD (i - 2) 0 ∈ equal_lows ∧
          lows.getD i 0 < lows.getD (i - 1) 0 ∧
          lows.getD (i - 1) 0 < lows.getD (i - 2) 0 then
        [⟨"low", lows.getD i 0, (getC candles i).ts⟩] else [])
    ⟨sortedSet equal_highs, sortedSet equal_lows, sweeps⟩

/-- One `{low, high}` price bin. -/
structure BinRange where
  low : ℚ
  high : ℚ
  deriving DecidableEq, Repr

/-- Result of `compute_volume_profile` when non-empty. -/
structure VolumeProfile where
  hvn : List BinRange
  lvn : List BinRange
  poc : ℚ
  deriving DecidableEq, Repr

/-- Python's `int()` on a (here always non-negative) rational: truncation
toward zero, i.e. `Int.tdiv` of numerator by denominator. -/
def pyInt (q : ℚ) : ℤ := q.num.tdiv q.den

/-- Python's `min(list)` over a nonempty list (`0` is never used: callers
guard against the empty list). -/
def listMinD : List ℚ → ℚ
  | [] => 0
  | x :: xs => xs.foldl min x

/-- Python's `max(list)` over a nonempty list. -/
def listMaxD : List ℚ → ℚ
  | [] => 0
  | x :: xs => xs.foldl max x

/-- The `closes` list of `compute_volume_profile`. -/
def closesOf (candles : List Candle) : List ℚ := candles.map (·.close)

/-- The `vols` list of `compute_volume_profile`. -/
def volsOf (candles : List Candle) : List ℚ := candles.map (·.volume)

/-- The `width = (hi - lo) / bins` of `compute_volume_profile`. -/
def binWidth (candles : List Candle) (bins : ℕ) : ℚ :=
  (listMaxD (closesOf candles) - listMinD (closesOf candles)) / (bins : ℚ)

/-- One step of the bin-filling loop: `vol_bins[idx] += v`, with the index
`int((c - lo) / width)` clamped to `bins - 1` when it would overflow. -/
def binStep (lo width : ℚ) (bins : ℕ) (acc : List ℚ) (cv : ℚ × ℚ) : List ℚ :=
  let idx0 := (pyInt ((cv.1 - lo) / width)).toNat
  let idx := if bins ≤ idx0 then bins - 1 else idx0
  acc.set idx (acc.getD idx 0 + cv.2)

/-- The bin-filling loop of `compute_volume_profile` over
`zip(closes, vols)`, starting from `bins` zeroed bins. -/
def volumeBins (closes vols : List ℚ) (lo width : ℚ) (bins : ℕ) : List ℚ :=
  (closes.zip vols).foldl (binStep lo width bins) (List.replicate bins 0)

/-- The `vol_bins` array of `compute_volume_profile candles bins`. -/
def profileBins (candles : List Candle) (bins : ℕ) : List ℚ :=
  volumeBins (closesOf candles) (volsOf candles) (listMinD (closesOf candles))
    (binWidth candles bins) bins

/-- `compute_volume_profile` from `bot/spot_indicators.py`.  Python's stable
`sorted(..., key=λx. x[1], reverse=True)` is `List.insertionSort` with the
comparison `b.2 ≤ a.2` (earlier elements stay in front of equal-volume later
ones), and `sorted(..., key=λx. x[1])` is `insertionSort` with `a.2 ≤ b.2`;
`sorted_by_vol[-3:]` is `drop (length - 3)`. -/
def compute_volume_profile (candles : List Candle) (bins : ℕ) : Option VolumeProfile :=
  if candles = [] then none
  else
    let lo := listMinD (closesOf candles)
    let hi := listMaxD (closesOf candles)
    if hi ≤ lo then none
    else
      let width := binWidth candles bins
      if width ≤ 0 then none
      else
        let vol_bins := profileBins candles bins
        let nonzero := vol_bins.enum.filter fun x => 0 < x.2
        if nonzero = [] then none
        else
          let sorted_by_vol := List.insertionSort (fun a b => b.2 ≤ a.2) nonzero
          let hvn_bins := sorted_by_vol.take 3
          let lvn_bins := List.insertionSort (fun a b => a.2 ≤ b.2)
            (sorted_by_vol.drop (sorted_by_vol.length - 3))
          let binRange : ℕ → BinRange := fun idx =>
            ⟨lo + idx * width, lo + idx * width + width⟩
          let poc_bin := (sorted_by_vol.headD (0, 0)).1
          some ⟨hvn_bins.map fun x => binRange x.1,
                lvn_bins.map fun x => binRange x.1,
                (lo + poc_bin * width) + width / 2⟩

/-- Result of `compute_trend` when non-empty. -/
structure Trend where
  ema_fast : ℚ
  ema_slow : ℚ
  slope : String
  momentum : ℚ
  deriving DecidableEq, Repr

/-- The loop of `_ema`: `ema_prev = alpha * v + (1 - alpha) * ema_prev`,
appending each new value. -/
def emaGo (alpha : ℚ) : ℚ → List ℚ → List ℚ
  | _, [] => []
  | prev, v :: vs =>
    let e := alpha * v + (1 - alpha) * prev
    e :: emaGo alpha e vs

/-- `_ema` from `bot/spot_indicators.py`: smoothing `2 / (period + 1)`, seeded
with the first value (and the seed itself is also fed through the loop). -/
def ema (values : List ℚ) (period : ℕ) : List ℚ :=
  if values = [] ∨ period ≤ 1 then values
  else emaGo (2 / ((period : ℚ) + 1)) (values.headD 0) values

/-- Python's `l[-k]` for a list known to have at least `k` elements. -/
def negGet (l : List ℚ) (k : ℕ) : ℚ := l.getD (l.length - k) 0

/-- `compute_trend` from `bot/spot_indicators.py`. -/
def compute_trend (candles : List Candle) : Option Trend :=
  if candles.length < 20 then none
  else
    let closes := candles.map (·.close)
    let ema_fast := ema closes 9
    let ema_slow := ema closes 21
    let ef := negGet ema_fast 1
    let es := negGet ema_slow 1
    let slope_val := if 6 < ema_fast.length then ef - negGet ema_fast 6 else 0
    let slope := if slope_val > 0 then "up"
      else if slope_val < 0 then "down" else "flat"
    some ⟨ef, es, slope, (ef - es) / max es (1 / 1000000)⟩

/-- The slope rule exactly as the claim words it: compare the latest fast-EMA
value to the fast-EMA value 6 bars earlier (index `len - 7`, i.e. `l[-7]`);
zero delta (hence `"flat"`) when fewer than 7 EMA values exist. -/
def slopeClaim (candles : List Candle) : String :=
  let ema_fast := ema (candles.map (·.close)) 9
  let delta := if 7 ≤ ema_fast.length then negGet ema_fast 1 - negGet ema_fast 7 else 0
  if delta > 0 then "up" else if delta < 0 then "down" else "flat"

/-- The `swings` payload stored in the snapshot. -/
structure SwingsPayload where
  last_high : Option SwingPoint
  prev_high : Option SwingPoint
  last_low : Option SwingPoint
  prev_low : Option SwingPoint
  deriving DecidableEq, Repr

/-- The full snapshot row assembled by `compute_spot_snapshot` (the constant
`extras = {}` field carries no data and is not modelled). -/
structure SpotSnapshot where
  timeframe : String
  use_case : String
  structure_state : String
  swings : SwingsPayload
  fvgs : List FVG
  liquidity : LiquidityReport
  volume_profile : Option VolumeProfile
  trend : Option Trend
  deriving DecidableEq, Repr

/-- `compute_spot_snapshot` from `bot/spot_indicators.py`: pure composition of
the indicator functions over one shared candle sequence, with the source's
default parameters (`tol = 0.0005`, `bins = 20`) for the nested calls. -/
def compute_spot_snapshot (candles : List Candle) (timeframe use_case : String)
    (fractal : ℕ) : SpotSnapshot :=
  let swings_info := find_swings candles fractal
  let lh := pick_last_two swings_info.swing_highs
  let ll := pick_last_two swings_info.swing_lows
  { timeframe := timeframe
    use_case := use_case
    structure_state := classify_structure lh.1 lh.2 ll.1 ll.2
    swings := ⟨lh.1, lh.2, ll.1, ll.2⟩
    fvgs := compute_fvgs candles
    liquidity := compute_liquidity candles defaultTol
    volume_profile := compute_volume_profile candles 20
    trend := compute_trend candles }

/-- Python's `str.lower()` restricted to the ASCII strings this code compares
(`String.map` written out over the character list so that it evaluates). -/
def pyLower (s : String) : String := ⟨s.data.map Char.toLower⟩

/-- Python's `str.upper()` for ASCII strings, as above. -/
def pyUpper (s : String) : String := ⟨s.data.map Char.toUpper⟩

/-- The fields of a raw Tradier position that the classification step of
`run_positions_loop` (`bot/loops.py`) reads: the `symbol` string and the
optional `instrument.asset_type` field (absent instrument or field ⇒ `none`,
matching Python's `(p.get("instrument") or {}).get("asset_type", "")`). -/
structure RawPosition where
  symbol : String
  instrument_asset_type : Option String
  deriving DecidableEq, Repr

/-- The asset-type classification of `run_positions_loop`:
`is_option = inst_type == "option" or len(sym_raw) > 15`, giving
`(asset_type, contract_multiplier)`. -/
def classify_position (p : RawPosition) : String × ℕ :=
  let sym_raw := pyUpper p.symbol
  let inst_type := pyLower (p.instrument_asset_type.getD "")
  let is_option := inst_type = "option" ∨ sym_raw.length > 15
  (if is_option then "option" else "equity", if is_option then 100 else 1)

/-- Position classification exactly as the claim words it: the explicit
asset-type field alone decides when present, and the length heuristic decides
only when the field is absent. -/
def classifyPositionClaim (p : RawPosition) : String × ℕ :=
  match p.instrument_asset_type with
  | some t => if pyLower t = "option" then ("option", 100) else ("equity", 1)
  | none => if (pyUpper p.symbol).length > 15 then ("option", 100) else ("equity", 1)

/-- The `sl_pct` / `tp_pct` fields of the defaults row, as
`_compute_sl_tp_levels` (`bot/new_trade_importer.py`) reads them. -/
structure TradeDefaults where
  sl_pct : Option ℚ
  tp_pct : Option ℚ
  deriving DecidableEq, Repr

/-- Python's `_safe_float(v) or 0.0`: `None` and `0.0` are falsy, any other
float passes through. -/
def orFloatZero : Option ℚ → ℚ
  | none => 0
  | some v => if v = 0 then 0 else v

/-- The SL/TP pair returned by `_compute_sl_tp_levels`. -/
structure SlTpLevels where
  sl_level : Option ℚ
  tp_level : Option ℚ
  deriving DecidableEq, Repr

/-- `_compute_sl_tp_levels` from `bot/new_trade_importer.py`: percentage
offsets applied to the underlying spot, with the call/put sign flip; existing
levels are kept, and a level is only filled in when its percentage is
positive.  `cp_u = (cp_dir or "").upper() if cp_dir else None` maps both
`None` and the empty string to `none`. -/
def compute_sl_tp_levels (asset_type : String) (cp_dir : Option String)
    (spot_price : ℚ) (defaults : TradeDefaults)
    (existing_sl_level existing_tp_level : Option ℚ) : SlTpLevels :=
  let sl_pct := orFloatZero defaults.sl_pct
  let tp_pct := orFloatZero defaults.tp_pct
  let atype := pyLower asset_type
  let cp_u : Option String := match cp_dir with
    | none => none
    | some s => if s = "" then none else some (pyUpper s)
  if existing_sl_level = none ∨ existing_tp_level = none then
    if atype = "option" ∧ (cp_u = some "C" ∨ cp_u = some "P") then
      if cp_u = some "C" then
        ⟨if existing_sl_level = none ∧ sl_pct > 0 then
            some (spot_price * (1 - sl_pct)) else existing_sl_level,
         if existing_tp_level = none ∧ tp_pct > 0 then
            some (spot_price * (1 + tp_pct)) else existing_tp_level⟩
      else
        ⟨if existing_sl_level = none ∧ sl_pct > 0 then
            some (spot_price * (1 + sl_pct)) else existing_sl_level,
         if existing_tp_level = none ∧ tp_pct > 0 then
            some (spot_price * (1 - tp_pct)) else existing_tp_level⟩
    else
      ⟨if existing_sl_level = none ∧ sl_pct > 0 then
          some (spot_price * (1 - sl_pct)) else existing_sl_level,
       if existing_tp_level = none ∧ tp_pct > 0 then
          some (spot_price * (1 + tp_pct)) else existing_tp_level⟩
  else ⟨existing_sl_level, existing_tp_level⟩

/-!  ## Fixtures and helper lemmas -/

/-- The 5-candle end-to-end fixture: highs `[10, 12, 15, 12, 10]` with the
lows mirrored one unit below. -/
def swingFixture : List Candle :=
  [⟨0, 10, 9, 10, 1⟩, ⟨1, 12, 11, 12, 1⟩, ⟨2, 15, 14, 15, 1⟩,
   ⟨3, 12, 11, 12, 1⟩, ⟨4, 10, 9, 10, 1⟩]

/-- Two candles with identical highs — below the `n ≥ 3` guard of
`compute_liquidity`. -/
def liqPair : List Candle := [⟨0, 10, 5, 7, 1⟩, ⟨1, 10, 6, 8, 1⟩]

/-- Three candles, the first two with identical highs. -/
def liqTriple : List Candle :=
  [⟨0, 10, 5, 7, 1⟩, ⟨1, 10, 6, 8, 1⟩, ⟨2, 12, 6, 9, 1⟩]

/-- Three candles with a bullish gap at the middle index
(`high[0] = 10 < 20 = low[2]`). -/
def fvgFixture : List Candle :=
  [⟨0, 10, 9, 9, 1⟩, ⟨1, 15, 12, 13, 1⟩, ⟨2, 25, 20, 21, 1⟩]

/-- `getD` on a mapped field is the field of `getC`, inside bounds. -/
lemma getD_map_field (f : Candle → ℚ) (candles : List Candle) (i : ℕ)
    (hi : i < candles.length) :
    (candles.map f).getD i 0 = f (getC candles i) := by
  have hi' : i < (candles.map f).length := by simpa using hi
  rw [List.getD_eq_getElem _ _ hi', List.getElem_map, getC,
    List.getD_eq_getElem _ _ hi]

/-- Membership in `sortedSet` is membership in the original list. -/
lemma mem_sortedSet {x : ℚ} {l : List ℚ} : x ∈ sortedSet l ↔ x ∈ l := by
  simp [sortedSet, List.mem_insertionSort, List.mem_dedup]

/-!  ## Theorems -/

/-- C6: `compute_spot_snapshot` is a pure function of the candle sequence and
the stated parameters — two invocations on identical inputs produce identical
snapshots. -/
theorem compute_spot_snapshot_deterministic
    (c1 c2 : List Candle) (tf1 tf2 uc1 uc2 : String) (f1 f2 : ℕ)
    (hc : c1 = c2) (htf : tf1 = tf2) (huc : uc1 = uc2) (hf : f1 = f2) :
    compute_spot_snapshot c1 tf1 uc1 f1 = compute_spot_snapshot c2 tf2 uc2 f2 := by
  subst hc; subst htf; subst huc; subst hf; rfl

/-- Witness for C6 at the concrete 5-candle fixture. -/
theorem compute_spot_snapshot_deterministic_witness :
    compute_spot_snapshot swingFixture "15min" "generic" 2 =
      compute_spot_snapshot swingFixture "15min" "generic" 2 :=
  compute_spot_snapshot_deterministic swingFixture swingFixture "15min" "15min"
    "generic" "generic" 2 2 rfl rfl rfl rfl

/-- C2 counterexample: a 2-candle sequence with identical highs `10` — the
claim requires `10 ∈ equal_highs`, but `compute_liquidity` returns empty
lists for any input shorter than 3 candles. -/
theorem equal_highs_counterexample :
    (getC liqPair 0).high = 10 ∧ (getC liqPair 1).high = 10 ∧
    liqPair.length = 2 ∧
    (10 : ℚ) ∉ (compute_liquidity liqPair defaultTol).equal_highs := by
  refine ⟨rfl, rfl, rfl, ?_⟩
  have h2 : liqPair.length < 3 := by decide
  simp [compute_liquidity, h2]

/-- C2 amended: for every candle sequence of length at least 3 whose
candles `i` and `i+1` share the same high `h`, the default-tolerance
`compute_liquidity` returns an `equal_highs` list containing `h`. -/
theorem equal_highs_detected (candles : List Candle) (i : ℕ) (h : ℚ)
    (hn : 3 ≤ candles.length) (hi : i + 1 < candles.length)
    (h0 : (getC candles i).high = h) (h1 : (getC candles (i + 1)).high = h) :
    h ∈ (compute_liquidity candles defaultTol).equal_highs := by
  unfold compute_liquidity
  rw [if_neg (by omega)]
  rw [mem_sortedSet, List.mem_filterMap]
  refine ⟨i + 1, ?_, ?_⟩
  · rw [List.mem_range']
    exact ⟨i, by omega, by omega⟩
  · have e0 : (candles.map (·.high)).getD (i + 1 - 1) 0 = h := by
      rw [show i + 1 - 1 = i from rfl, getD_map_field _ _ _ (by omega), h0]
    have e1 : (candles.map (·.high)).getD (i + 1) 0 = h := by
      rw [getD_map_field _ _ _ hi, h1]
    rw [e0, e1, if_pos]
    · norm_num
    · simp only [sub_self, abs_zero, zero_div, defaultTol]
      norm_num

/-- Witness for C2 (amended) on the 3-candle fixture. -/
theorem equal_highs_detected_witness :
    (10 : ℚ) ∈ (compute_liquidity liqTriple defaultTol).equal_highs :=
  equal_highs_detected liqTriple 0 10 (by decide) (by decide) rfl rfl

/-- C10: every fair value gap produced by `compute_fvgs` has its bottom
strictly below its top, and its age lies in `[2, n-1]`. -/
theorem fvg_invariants (candles : List Candle) (g : FVG)
    (hg : g ∈ compute_fvgs candles) :
    g.bottom < g.top ∧ 2 ≤ g.age ∧ g.age ≤ candles.length - 1 := by
  unfold compute_fvgs at hg
  by_cases h3 : candles.length < 3
  · rw [if_pos h3] at hg
    simp at hg
  · rw [if_neg h3] at hg
    rw [List.mem_flatMap] at hg
    obtain ⟨m, hm, hgm⟩ := hg
    rw [List.mem_range'] at hm
    obtain ⟨j, hj, rfl⟩ := hm
    rcases List.mem_append.1 hgm with hb | hb
    · by_cases hc : (getC candles (1 + 1 * j - 1)).high < (getC candles (1 + 1 * j + 1)).low
      · rw [if_pos hc] at hb
        rcases List.mem_singleton.1 hb with rfl
        exact ⟨hc, by dsimp only; omega, by dsimp only; omega⟩
      · rw [if_neg hc] at hb
        simp at hb
    · by_cases hc : (getC candles (1 + 1 * j - 1)).low > (getC candles (1 + 1 * j + 1)).high
      · rw [if_pos hc] at hb
        rcases List.mem_singleton.1 hb with rfl
        exact ⟨hc, by dsimp only; omega, by dsimp only; omega⟩
      · rw [if_neg hc] at hb
        simp at hb

/-- Witness for C10: the bullish gap of the 3-candle fixture. -/
theorem fvg_invariants_witness :
    (⟨"bull", 20, 10, 2, 1⟩ : FVG) ∈ compute_fvgs fvgFixture ∧
    ((10 : ℚ) < 20 ∧ 2 ≤ 2 ∧ 2 ≤ fvgFixture.length - 1) := by
  have hm : (⟨"bull", 20, 10, 2, 1⟩ : FVG) ∈ compute_fvgs fvgFixture := by
    norm_num [compute_fvgs, getC, fvgFixture, List.range']
  exact ⟨hm, fvg_invariants fvgFixture _ hm⟩

/-- C9: with `sl_pct = 0.05`, `tp_pct = 0.10`, `spot = 100` and no preset
levels, an option in call direction gets `sl_level = 95`, `tp_level = 110`,
and a put under the same inputs gets the signs flipped:
`sl_level = 105`, `tp_level = 90`. -/
theorem sl_tp_call_and_put_scenario :
    compute_sl_tp_levels "option" (some "C") 100 ⟨some (5 / 100), some (10 / 100)⟩
        none none = ⟨some 95, some 110⟩ ∧
    compute_sl_tp_levels "option" (some "P") 100 ⟨some (5 / 100), some (10 / 100)⟩
        none none = ⟨some 105, some 90⟩ := by
  have h1 : pyLower "option" = "option" := by decide
  have h2 : pyUpper "C" = "C" := by decide
  have h3 : pyUpper "P" = "P" := by decide
  have h4 : ("C" : String) ≠ "" := by decide
  have h5 : ("P" : String) ≠ "" := by decide
  have h6 : ("P" : String) ≠ "C" := by decide
  constructor <;>
    · simp only [compute_sl_tp_levels, orFloatZero, h1, h2, h3, h4, h5, h6]
      norm_num
      try exact h6

/-- C3 counterexample: a position whose instrument explicitly says `equity`
but whose symbol has 16 characters.  The code classifies it as an option with
multiplier 100 (the length heuristic fires although the field is present),
while the claim's rule classifies it as equity with multiplier 1. -/
theorem classify_position_counterexample :
    classify_position ⟨"SPXW251219C06000", some "equity"⟩ = ("option", 100) ∧
    classifyPositionClaim ⟨"SPXW251219C06000", some "equity"⟩ = ("equity", 1) := by
  decide

/-- C3 amended: a raw position is classified as `option` (multiplier 100)
exactly when the lowercased asset-type field equals `"option"` or the symbol
is longer than 15 characters — the length heuristic applies regardless of
whether the field is present; otherwise `equity` (multiplier 1). -/
theorem classify_position_rule (p : RawPosition) :
    classify_position p =
      if pyLower (p.instrument_asset_type.getD "") = "option" ∨
          15 < (pyUpper p.symbol).length
      then ("option", 100) else ("equity", 1) := by
  by_cases h : pyLower (p.instrument_asset_type.getD "") = "option" ∨
      15 < (pyUpper p.symbol).length <;>
    simp [classify_position, h]

/-- C4: `classify_structure` returns `"unknown"` iff one of the four swing
points is missing; on four present points it equals the claim's sequential
HH/HL/LH/LL/range rule with its exact `>`/`≥` boundaries; and the result is
always one of the six states. -/
theorem classify_structure_cases (a b c d : Option SwingPoint) :
    (classify_structure a b c d = "unknown" ↔
      a = none ∨ b = none ∨ c = none ∨ d = none) ∧
    (∀ lh ph ll pl : SwingPoint,
      classify_structure (some lh) (some ph) (some ll) (some pl) =
        classifyStructureClaim lh.price ph.price ll.price pl.price) ∧
    classify_structure a b c d ∈ ["HH", "HL", "LH", "LL", "range", "unknown"] := by
  have key : ∀ lh ph ll pl : SwingPoint,
      classify_structure (some lh) (some ph) (some ll) (some pl) =
        classifyStructureClaim lh.price ph.price ll.price pl.price := by
    intro lh ph ll pl
    simp only [classify_structure, classifyStructureClaim, gt_iff_lt, ge_iff_le, not_lt]
  refine ⟨?_, key, ?_⟩
  · cases a <;> cases b <;> cases c <;> cases d <;>
      simp [classify_structure] <;> split_ifs <;> decide
  · cases a <;> cases b <;> cases c <;> cases d <;>
      (simp only [classify_structure]
       first
         | decide
         | (split_ifs <;> decide))

/-- 20-candle fixture: closes are 100 for indices 0–13, spike to 200 at
index 14, back to 100 for indices 15–19.  The fast EMA at the latest bar is
above its value 6 bars earlier but below its value 5 bars earlier, so the
5-bar and 6-bar lookbacks give opposite slopes. -/
def trendFixture : List Candle :=
  List.replicate 14 (⟨0, 100, 100, 100, 1⟩ : Candle) ++
    [(⟨0, 200, 200, 200, 1⟩ : Candle)] ++
    List.replicate 5 (⟨0, 100, 100, 100, 1⟩ : Candle)

/-- `emaGo` preserves the length of its input. -/
lemma emaGo_length (alpha : ℚ) (vs : List ℚ) :
    ∀ prev, (emaGo alpha prev vs).length = vs.length := by
  induction vs with
  | nil => intro prev; rfl
  | cons v vs ih => intro prev; simp [emaGo, ih]

/-- `_ema` returns exactly one smoothed value per input value. -/
lemma ema_length (values : List ℚ) (period : ℕ) :
    (ema values period).length = values.length := by
  unfold ema
  split
  · rfl
  · exact emaGo_length _ _ _

/-- C1 counterexample: on the spike fixture the code's slope (latest fast-EMA
minus `ema_fast[-6]`, 5 bars earlier) is `"down"`, while the claim's rule
(latest minus the value 6 bars earlier, `ema_fast[-7]`) gives `"up"`. -/
theorem trend_slope_counterexample :
    (compute_trend trendFixture).map (·.slope) = some "down" ∧
    slopeClaim trendFixture = "up" := by
  norm_num [compute_trend, slopeClaim, ema, emaGo, negGet, trendFixture,
    List.replicate, getC, List.cons_ne_nil, List.getElem?_cons_zero,
    List.getElem?_cons_succ]

/-- C1 amended: for every sequence of at least 20 candles, the slope is
obtained by comparing the latest fast-EMA value to the fast-EMA value
**5 bars earlier** (`ema_fast[-6]`): `"up"` if strictly greater, `"down"` if
strictly less, else `"flat"` (with 20 or more candles there are always at
least 7 EMA values, so the zero-delta fallback never fires). -/
theorem trend_slope_rule (candles : List Candle) (h : 20 ≤ candles.length) :
    (compute_trend candles).map (·.slope) =
      some (if negGet (ema (candles.map (·.close)) 9) 1 -
                negGet (ema (candles.map (·.close)) 9) 6 > 0 then "up"
            else if negGet (ema (candles.map (·.close)) 9) 1 -
                negGet (ema (candles.map (·.close)) 9) 6 < 0 then "down"
            else "flat") := by
  unfold compute_trend
  rw [if_neg (by omega)]
  have hlen : 6 < (ema (candles.map (·.close)) 9).length := by
    rw [ema_length]
    simpa using by omega
  dsimp only
  rw [if_pos hlen]
  rfl

/-- Witness for C1 (amended): 20 constant closes give a zero delta and slope
`"flat"`. -/
theorem trend_slope_rule_witness :
    (compute_trend (List.replicate 20 (⟨0, 100, 100, 100, 1⟩ : Candle))).map
        (·.slope) =
      some (if negGet (ema ((List.replicate 20 (⟨0, 100, 100, 100, 1⟩ : Candle)).map
                (·.close)) 9) 1 -
              negGet (ema ((List.replicate 20 (⟨0, 100, 100, 100, 1⟩ : Candle)).map
                (·.close)) 9) 6 > 0 then "up"
            else if negGet (ema ((List.replicate 20 (⟨0, 100, 100, 100, 1⟩ : Candle)).map
                (·.close)) 9) 1 -
              negGet (ema ((List.replicate 20 (⟨0, 100, 100, 100, 1⟩ : Candle)).map
                (·.close)) 9) 6 < 0 then "down"
            else "flat") :=
  trend_slope_rule (List.replicate 20 (⟨0, 100, 100, 100, 1⟩ : Candle)) (by simp)

/-- 20 candles with strictly increasing closes `1..20`. -/
def upFixture : List Candle :=
  [⟨0, 1, 1, 1, 1⟩, ⟨1, 2, 2, 2, 1⟩, ⟨2, 3, 3, 3, 1⟩, ⟨3, 4, 4, 4, 1⟩,
   ⟨4, 5, 5, 5, 1⟩, ⟨5, 6, 6, 6, 1⟩, ⟨6, 7, 7, 7, 1⟩, ⟨7, 8, 8, 8, 1⟩,
   ⟨8, 9, 9, 9, 1⟩, ⟨9, 10, 10, 10, 1⟩, ⟨10, 11, 11, 11, 1⟩, ⟨11, 12, 12, 12, 1⟩,
   ⟨12, 13, 13, 13, 1⟩, ⟨13, 14, 14, 14, 1⟩, ⟨14, 15, 15, 15, 1⟩,
   ⟨15, 16, 16, 16, 1⟩, ⟨16, 17, 17, 17, 1⟩, ⟨17, 18, 18, 18, 1⟩,
   ⟨18, 19, 19, 19, 1⟩, ⟨19, 20, 20, 20, 1⟩]

/-- Along a strictly increasing input, the EMA loop output is strictly
increasing and stays strictly above the incoming accumulator, for any
smoothing factor in `(0, 1)`. -/
lemma emaGo_chain (alpha : ℚ) (h0 : 0 < alpha) (h1 : alpha < 1) :
    ∀ (vs : List ℚ) (prev : ℚ), vs.Chain' (· < ·) →
      (∀ x ∈ vs.head?, prev < x) →
      (emaGo alpha prev vs).Chain' (· < ·) ∧
      ∀ e ∈ (emaGo alpha prev vs).head?, prev < e := by
  intro vs
  induction vs with
  | nil =>
    intro prev _ _
    refine ⟨List.chain'_nil, ?_⟩
    intro e he
    simp [emaGo] at he
  | cons v vs ih =>
    intro prev hch hhd
    have hpv : prev < v := hhd v rfl
    have hpe : prev < alpha * v + (1 - alpha) * prev := by nlinarith
    have hev : alpha * v + (1 - alpha) * prev < v := by nlinarith
    obtain ⟨hc, hh⟩ := ih (alpha * v + (1 - alpha) * prev)
      (List.chain'_cons'.1 hch).2
      (fun x hx => hev.trans ((List.chain'_cons'.1 hch).1 x hx))
    constructor
    · show List.Chain' (· < ·)
        ((alpha * v + (1 - alpha) * prev) ::
          emaGo alpha (alpha * v + (1 - alpha) * prev) vs)
      exact List.chain'_cons'.2 ⟨hh, hc⟩
    · intro e he
      have he' : some (alpha * v + (1 - alpha) * prev) = some e := he
      obtain rfl := Option.some_injective _ he'
      exact hpe

/-- `_ema` of a strictly increasing list is strictly increasing, for
period ≥ 2. -/
lemma ema_chain (values : List ℚ) (period : ℕ) (hp : 2 ≤ period)
    (hch : values.Chain' (· < ·)) : (ema values period).Chain' (· < ·) := by
  cases values with
  | nil => simp [ema]
  | cons v vs =>
    have halpha0 : 0 < 2 / ((period : ℚ) + 1) := by positivity
    have halpha1 : 2 / ((period : ℚ) + 1) < 1 := by
      rw [div_lt_one (by positivity)]
      have h2 : (2 : ℚ) ≤ (period : ℚ) := by exact_mod_cast hp
      linarith
    unfold ema
    rw [if_neg (by push_neg; exact ⟨List.cons_ne_nil _ _, by omega⟩)]
    have hstep : emaGo (2 / ((period : ℚ) + 1)) ((v :: vs).headD 0) (v :: vs) =
        v :: emaGo (2 / ((period : ℚ) + 1)) v vs := by
      show (2 / ((period : ℚ) + 1) * v + (1 - 2 / ((period : ℚ) + 1)) * v) ::
          emaGo (2 / ((period : ℚ) + 1))
            (2 / ((period : ℚ) + 1) * v + (1 - 2 / ((period : ℚ) + 1)) * v) vs = _
      rw [show 2 / ((period : ℚ) + 1) * v + (1 - 2 / ((period : ℚ) + 1)) * v = v
        by ring]
    rw [hstep]
    obtain ⟨hc, hh⟩ := emaGo_chain _ halpha0 halpha1 vs v
      (List.chain'_cons'.1 hch).2
      (fun x hx => (List.chain'_cons'.1 hch).1 x hx)
    exact List.chain'_cons'.2 ⟨hh, hc⟩

/-- A strict chain gives strict inequality between any two positions. -/
lemma chain'_getD_lt {l : List ℚ} (h : l.Chain' (· < ·)) {i j : ℕ}
    (hij : i < j) (hj : j < l.length) : l.getD i 0 < l.getD j 0 := by
  have hp := List.chain'_iff_pairwise.1 h
  have hig := List.pairwise_iff_get.1 hp ⟨i, by omega⟩ ⟨j, hj⟩ hij
  rw [List.getD_eq_getElem _ _ (show i < l.length by omega),
    List.getD_eq_getElem _ _ hj]
  simpa using hig

/-- C7: `compute_trend` returns the empty record for any input with fewer
than 20 candles, and for 20 or more candles with strictly increasing closes
its slope is `"up"`. -/
theorem trend_empty_below_20_and_up_on_increasing (candles : List Candle) :
    (candles.length < 20 → compute_trend candles = none) ∧
    (20 ≤ candles.length → (candles.map (·.close)).Chain' (· < ·) →
      ∃ t, compute_trend candles = some t ∧ t.slope = "up") := by
  constructor
  · intro h
    unfold compute_trend
    rw [if_pos h]
  · intro h20 hch
    have hlen : (ema (candles.map (·.close)) 9).length = candles.length := by
      rw [ema_length]; simp
    have hchain : (ema (candles.map (·.close)) 9).Chain' (· < ·) :=
      ema_chain _ 9 (by omega) hch
    have hlt : negGet (ema (candles.map (·.close)) 9) 6 <
        negGet (ema (candles.map (·.close)) 9) 1 := by
      unfold negGet
      exact chain'_getD_lt hchain (by omega) (by omega)
    unfold compute_trend
    rw [if_neg (by omega)]
    dsimp only
    rw [if_pos (show 6 < (ema (candles.map (·.close)) 9).length by omega)]
    refine ⟨_, rfl, ?_⟩
    dsimp only
    rw [if_pos (show negGet (ema (candles.map (·.close)) 9) 1 -
        negGet (ema (candles.map (·.close)) 9) 6 > 0 by linarith)]

/-- Witness for C7: the empty input gives the empty record, and the
20-candle strictly increasing fixture gives slope `"up"`. -/
theorem trend_empty_below_20_and_up_on_increasing_witness :
    compute_trend [] = none ∧
    (∃ t, compute_trend upFixture = some t ∧ t.slope = "up") :=
  ⟨(trend_empty_below_20_and_up_on_increasing []).1 (by decide),
   (trend_empty_below_20_and_up_on_increasing upFixture).2 (by decide)
     (by norm_num [upFixture, List.chain'_cons])⟩

/-- The source's `all(...)` over `range(1, fractal + 1)` computes exactly the
spec's swing-high predicate. -/
lemma all_eq_decide_specSwingHigh (candles : List Candle) (fractal i : ℕ) :
    ((List.range' 1 fractal).all fun k =>
        decide ((getC candles i).high > (getC candles (i - k)).high) &&
          decide ((getC candles i).high > (getC candles (i + k)).high)) =
      decide (specSwingHigh candles fractal i) := by
  by_cases hs : specSwingHigh candles fractal i
  · rw [decide_eq_true hs, List.all_eq_true]
    intro k hk
    rw [List.mem_range'_1] at hk
    have hp := hs k (Finset.mem_Icc.2 ⟨by omega, by omega⟩)
    simp [hp.1, hp.2]
  · rw [decide_eq_false hs, ← Bool.not_eq_true, List.all_eq_true]
    intro hall
    apply hs
    intro k hk
    rw [Finset.mem_Icc] at hk
    have hm := hall k (List.mem_range'_1.2 ⟨by omega, by omega⟩)
    simpa using hm

/-- Same for the swing-low predicate. -/
lemma all_eq_decide_specSwingLow (candles : List Candle) (fractal i : ℕ) :
    ((List.range' 1 fractal).all fun k =>
        decide ((getC candles i).low < (getC candles (i - k)).low) &&
          decide ((getC candles i).low < (getC candles (i + k)).low)) =
      decide (specSwingLow candles fractal i) := by
  by_cases hs : specSwingLow candles fractal i
  · rw [decide_eq_true hs, List.all_eq_true]
    intro k hk
    rw [List.mem_range'_1] at hk
    have hp := hs k (Finset.mem_Icc.2 ⟨by omega, by omega⟩)
    simp [hp.1, hp.2]
  · rw [decide_eq_false hs, ← Bool.not_eq_true, List.all_eq_true]
    intro hall
    apply hs
    intro k hk
    rw [Finset.mem_Icc] at hk
    have hm := hall k (List.mem_range'_1.2 ⟨by omega, by omega⟩)
    simpa using hm

/-- A `filterMap` whose body is a guarded `some` is a `filter` then `map`. -/
lemma filterMap_ite_eq_map_filter {β : Type} (p : ℕ → Bool) (f : ℕ → β)
    (l : List ℕ) :
    (l.filterMap fun i => if p i then some (f i) else none) =
      (l.filter p).map f := by
  induction l with
  | nil => rfl
  | cons a l ih =>
    by_cases hpa : p a <;>
      simp [List.filterMap_cons, List.filter_cons, hpa, ih]

/-- Filtering `range n` by the window `fractal ≤ i`, `i + fractal < n` and a
predicate equals filtering the window range `range' f (n - 2f)` by the
predicate alone. -/
lemma range_filter_eq_range' (n f : ℕ) (q : ℕ → Bool) :
    ((List.range n).filter fun i =>
        decide (f ≤ i) && decide (i + f < n) && q i) =
      (List.range' f (n - f - f)).filter q := by
  haveI : IsAntisymm ℕ (· < ·) := ⟨fun a b h1 h2 => absurd h2 (by omega)⟩
  apply List.eq_of_perm_of_sorted (r := (· < ·))
  · rw [List.perm_ext_iff_of_nodup ((List.nodup_range n).filter _)
      ((List.nodup_range' f (n - f - f)).filter _)]
    intro a
    simp only [List.mem_filter, List.mem_range, List.mem_range'_1,
      Bool.and_eq_true, decide_eq_true_eq]
    constructor
    · rintro ⟨ha, ⟨h1, h2⟩, hq⟩
      exact ⟨⟨by omega, by omega⟩, hq⟩
    · rintro ⟨⟨h1, h2⟩, hq⟩
      exact ⟨by omega, ⟨by omega, by omega⟩, hq⟩
  · exact List.Pairwise.filter _ (List.pairwise_lt_range n)
  · exact List.Pairwise.filter _ (List.pairwise_lt_range' f (n - f - f))

/-- C5: `find_swings` returns, in sequence order, exactly the spec's
qualifying swing points; short inputs give empty results rather than an
error; and the 5-candle fixture has exactly one swing high (15 at index 2)
and no swing low. -/
theorem find_swings_matches_spec (candles : List Candle) (fractal : ℕ)
    (h : 1 ≤ fractal) :
    find_swings candles fractal = find_swings_spec candles fractal ∧
    (candles.length < 2 * fractal + 1 →
      find_swings candles fractal = ⟨[], []⟩) ∧
    find_swings swingFixture 2 = ⟨[⟨15, 2⟩], []⟩ := by
  refine ⟨?_, ?_, ?_⟩
  · unfold find_swings find_swings_spec
    dsimp only
    by_cases hn : candles.length < 2 * fractal + 1
    · rw [if_pos hn]
      have hhi : ((List.range candles.length).filter fun i =>
          decide (fractal ≤ i) && decide (i + fractal < candles.length) &&
            decide (specSwingHigh candles fractal i)) = [] := by
        rw [List.filter_eq_nil_iff]
        intro a ha
        rw [List.mem_range] at ha
        simp only [Bool.and_eq_true, decide_eq_true_eq, not_and]
        intro h1 h2
        omega
      have hlo : ((List.range candles.length).filter fun i =>
          decide (fractal ≤ i) && decide (i + fractal < candles.length) &&
            decide (specSwingLow candles fractal i)) = [] := by
        rw [List.filter_eq_nil_iff]
        intro a ha
        rw [List.mem_range] at ha
        simp only [Bool.and_eq_true, decide_eq_true_eq, not_and]
        intro h1 h2
        omega
      rw [hhi, hlo]
      rfl
    · rw [if_neg hn]
      have hhi := filterMap_ite_eq_map_filter
        (fun i => (List.range' 1 fractal).all fun k =>
          decide ((getC candles i).high > (getC candles (i - k)).high) &&
            decide ((getC candles i).high > (getC candles (i + k)).high))
        (fun i => (⟨(getC candles i).high, (getC candles i).ts⟩ : SwingPoint))
        (List.range' fractal (candles.length - fractal - fractal))
      have hlo := filterMap_ite_eq_map_filter
        (fun i => (List.range' 1 fractal).all fun k =>
          decide ((getC candles i).low < (getC candles (i - k)).low) &&
            decide ((getC candles i).low < (getC candles (i + k)).low))
        (fun i => (⟨(getC candles i).low, (getC candles i).ts⟩ : SwingPoint))
        (List.range' fractal (candles.length - fractal - fractal))
      rw [hhi, hlo,
        List.filter_congr fun i _ => all_eq_decide_specSwingHigh candles fractal i,
        List.filter_congr fun i _ => all_eq_decide_specSwingLow candles fractal i,
        ← range_filter_eq_range' candles.length fractal
          (fun i => decide (specSwingHigh candles fractal i)),
        ← range_filter_eq_range' candles.length fractal
          (fun i => decide (specSwingLow candles fractal i))]
  · intro hn
    unfold find_swings
    rw [if_pos hn]
  · decide

/-- Witness for C5 at the concrete fixture and `fractal = 2`. -/
theorem find_swings_matches_spec_witness :
    find_swings swingFixture 2 = find_swings_spec swingFixture 2 ∧
    find_swings swingFixture 2 = ⟨[⟨15, 2⟩], []⟩ :=
  ⟨(find_swings_matches_spec swingFixture 2 (by decide)).1,
   (find_swings_matches_spec swingFixture 2 (by decide)).2.2⟩

/-- The bin-filling fold never changes the number of bins. -/
lemma foldl_binStep_length (lo width : ℚ) (bins : ℕ) (l : List (ℚ × ℚ)) :
    ∀ acc : List ℚ, (l.foldl (binStep lo width bins) acc).length = acc.length := by
  induction l with
  | nil => intro acc; rfl
  | cons cv l ih =>
    intro acc
    rw [List.foldl_cons, ih]
    simp [binStep]

/-- `profileBins` always has exactly `bins` entries. -/
lemma profileBins_length (candles : List Candle) (bins : ℕ) :
    (profileBins candles bins).length = bins := by
  unfold profileBins volumeBins
  rw [foldl_binStep_length]
  exact List.length_replicate bins 0

/-- A member of a list is bounded by the second component of the head of the
volume-descending stable sort of that list. -/
lemma le_head_insertionSort_desc (l : List (ℕ × ℚ)) (x : ℕ × ℚ) (hx : x ∈ l) :
    x.2 ≤ ((List.insertionSort (fun a b => b.2 ≤ a.2) l).headD (0, 0)).2 := by
  haveI : IsTotal (ℕ × ℚ) (fun a b => b.2 ≤ a.2) := ⟨fun a b => le_total b.2 a.2⟩
  haveI : IsTrans (ℕ × ℚ) (fun a b => b.2 ≤ a.2) :=
    ⟨fun _ _ _ hab hbc => le_trans hbc hab⟩
  have hs := List.sorted_insertionSort (fun a b => b.2 ≤ a.2) l
  have hm : x ∈ List.insertionSort (fun a b => b.2 ≤ a.2) l :=
    (List.mem_insertionSort _).2 hx
  cases hsort : List.insertionSort (fun a b => b.2 ≤ a.2) l with
  | nil =>
    rw [hsort] at hm
    simp at hm
  | cons hd tl =>
    rw [hsort] at hm hs
    rcases List.mem_cons.1 hm with rfl | hmem
    · simp
    · simpa using (List.pairwise_cons.1 hs).1 x hmem

/-- Every entry of the `nonzero` filtered enumeration names an in-bounds bin
holding its (positive) volume. -/
lemma mem_nonzero_props {candles : List Candle} {bins : ℕ} {x : ℕ × ℚ}
    (hx : x ∈ (profileBins candles bins).enum.filter fun y => 0 < y.2) :
    x.1 < bins ∧ (profileBins candles bins).getD x.1 0 = x.2 ∧ 0 < x.2 := by
  have hmem := List.mem_filter.1 hx
  have henum := List.mem_enum_iff_getElem?.1 hmem.1
  have hpos : 0 < x.2 := by simpa using hmem.2
  have hlt : x.1 < (profileBins candles bins).length := by
    by_contra hge
    rw [List.getElem?_eq_none (by omega)] at henum
    cases henum
  refine ⟨by rwa [profileBins_length] at hlt, ?_, hpos⟩
  rw [List.getD_eq_getElem _ _ hlt]
  have := List.getElem?_eq_getElem hlt
  rw [this] at henum
  exact Option.some_injective _ henum

/-- C8: whenever `compute_volume_profile` returns a result, its `poc` is the
center `lo + j*width + width/2` of a maximal-volume bin `j`, and it lies
within `[min(close), max(close)]`. -/
theorem poc_center_of_max_bin_and_in_range (candles : List Candle) (bins : ℕ)
    (vp : VolumeProfile) (h : compute_volume_profile candles bins = some vp) :
    listMinD (closesOf candles) ≤ vp.poc ∧
    vp.poc ≤ listMaxD (closesOf candles) ∧
    ∃ j, j < bins ∧
      0 < (profileBins candles bins).getD j 0 ∧
      (∀ k, k < bins →
        (profileBins candles bins).getD k 0 ≤ (profileBins candles bins).getD j 0) ∧
      vp.poc = listMinD (closesOf candles) + (j : ℚ) * binWidth candles bins +
        binWidth candles bins / 2 := by
  unfold compute_volume_profile at h
  dsimp only at h
  split at h
  · cases h
  next hc0 =>
    split at h
    next hlohi => cases h
    next hlohi =>
      split at h
      next hw => cases h
      next hw =>
        split at h
        next hnz => cases h
        next hnz =>
          obtain rfl := (Option.some_injective _ h).symm
          push_neg at hlohi hw
          -- the sorted list is nonempty, its head is the poc bin
          set nz := (profileBins candles bins).enum.filter
            (fun y => 0 < y.2) with hnzdef
          set srt := List.insertionSort (fun a b => b.2 ≤ a.2) nz with hsrtdef
          have hsne : srt ≠ [] := by
            intro hcon
            apply hnz
            have hperm := List.perm_insertionSort (fun a b => b.2 ≤ a.2) nz
            rw [hsrtdef] at hcon
            rw [← List.length_eq_zero]
            rw [← hperm.length_eq, hcon]
            rfl
          have hhd : srt.headD (0, 0) ∈ srt := by
            cases hs : srt with
            | nil => exact absurd hs hsne
            | cons a l => simp
          have hhdnz : srt.headD (0, 0) ∈ nz := by
            rw [hsrtdef] at hhd
            exact (List.mem_insertionSort _).1 hhd
          obtain ⟨hjlt, hjval, hjpos⟩ := mem_nonzero_props hhdnz
          have hbins1 : 1 ≤ bins := by
            by_contra hb
            have hb0 : bins = 0 := by omega
            apply absurd hw
            push_neg
            unfold binWidth
            rw [hb0]
            norm_num
          have hmax : ∀ k, k < bins →
              (profileBins candles bins).getD k 0 ≤
                (profileBins candles bins).getD (srt.headD (0, 0)).1 0 := by
            intro k hk
            by_cases hkpos : 0 < (profileBins candles bins).getD k 0
            · have hkmem : ((k, (profileBins candles bins).getD k 0) : ℕ × ℚ) ∈ nz := by
                rw [hnzdef]
                refine List.mem_filter.2 ⟨?_, by simpa using hkpos⟩
                rw [List.mem_enum_iff_getElem?]
                have hk' : k < (profileBins candles bins).length := by
                  rwa [profileBins_length]
                simp [List.getElem?_eq_getElem hk', List.getD_eq_getElem _ _ hk']
              have h2 := le_head_insertionSort_desc nz _ hkmem
              rw [← hsrtdef] at h2
              rw [hjval]
              exact h2
            · push_neg at hkpos
              calc (profileBins candles bins).getD k 0 ≤ 0 := hkpos
                _ ≤ (profileBins candles bins).getD (srt.headD (0, 0)).1 0 := by
                    rw [hjval]; exact le_of_lt hjpos
          have hwpos : 0 < binWidth candles bins := hw
          have hjcast : ((srt.headD (0, 0)).1 : ℚ) ≤ (bins : ℚ) - 1 := by
            have : (srt.headD (0, 0)).1 + 1 ≤ bins := hjlt
            have hc : ((srt.headD (0, 0)).1 : ℚ) + 1 ≤ (bins : ℚ) := by
              exact_mod_cast this
            linarith
          have hjcast0 : (0 : ℚ) ≤ ((srt.headD (0, 0)).1 : ℚ) := by positivity
          have hbw : (bins : ℚ) * binWidth candles bins =
              listMaxD (closesOf candles) - listMinD (closesOf candles) := by
            unfold binWidth
            field_simp
          refine ⟨?_, ?_, (srt.headD (0, 0)).1, hjlt, by rw [hjval]; exact hjpos,
            hmax, rfl⟩
          · dsimp only
            nlinarith
          · dsimp only
            nlinarith
/-- Two candles, closes 100 and 110 with volumes 5 and 3: two bins of width 5,
volumes `[5, 3]`, POC at the center `102.5` of bin 0. -/
def vpFixture : List Candle :=
  [⟨0, 100, 100, 100, 5⟩, ⟨1, 110, 110, 110, 3⟩]

/-- Witness for C8 on the two-candle fixture with 2 bins. -/
theorem poc_center_of_max_bin_and_in_range_witness :
    listMinD (closesOf vpFixture) ≤ (205 / 2 : ℚ) ∧
    (205 / 2 : ℚ) ≤ listMaxD (closesOf vpFixture) ∧
    ∃ j, j < 2 ∧
      0 < (profileBins vpFixture 2).getD j 0 ∧
      (∀ k, k < 2 →
        (profileBins vpFixture 2).getD k 0 ≤ (profileBins vpFixture 2).getD j 0) ∧
      (205 / 2 : ℚ) = listMinD (closesOf vpFixture) + (j : ℚ) * binWidth vpFixture 2 +
        binWidth vpFixture 2 / 2 := by
  have hlo : listMinD (closesOf vpFixture) = 100 := by
    norm_num [listMinD, closesOf, vpFixture, min_def]
  have hhi : listMaxD (closesOf vpFixture) = 110 := by
    norm_num [listMaxD, closesOf, vpFixture, max_def]
  have hw : binWidth vpFixture 2 = 5 := by
    rw [binWidth, hlo, hhi]
    norm_num
  have ht0 : ((0 : ℚ).num.tdiv ((0 : ℚ).den : ℤ)).toNat = 0 := by decide
  have ht2 : ((2 : ℚ).num.tdiv ((2 : ℚ).den : ℤ)).toNat = 2 := by decide
  have hpb : profileBins vpFixture 2 = [5, 3] := by
    rw [profileBins, hlo, hw, volumeBins]
    norm_num [closesOf, volsOf, vpFixture, List.zip, List.zipWith, binStep,
      pyInt, ht0, ht2, List.replicate, List.set, List.getD, List.getElem?_cons_zero,
      List.getElem?_cons_succ]
  have hvp : compute_volume_profile vpFixture 2 =
      some ⟨[⟨100, 105⟩, ⟨105, 110⟩], [⟨105, 110⟩, ⟨100, 105⟩], 205 / 2⟩ := by
    rw [compute_volume_profile, if_neg (by simp [vpFixture])]
    dsimp only
    rw [hlo, hhi, if_neg (by norm_num), hw, if_neg (by norm_num), hpb]
    norm_num [List.enum, List.enumFrom, List.insertionSort, List.orderedInsert,
      List.filter]
    intro hcon
    exact absurd hcon (List.cons_ne_nil _ _)
  exact poc_center_of_max_bin_and_in_range vpFixture 2
    ⟨[⟨100, 105⟩, ⟨105, 110⟩], [⟨105, 110⟩, ⟨100, 105⟩], 205 / 2⟩ hvp

end TradierBot
